import Mathlib

set_option maxRecDepth 2000

/-!
Shallow embedding of the osmem memory allocator (src/osmem.c) and proofs
about its public operations: os_malloc, os_free, os_calloc, os_realloc.

Modelling conventions:
* C `size_t` arithmetic is `Nat` arithmetic reduced mod 2^64 exactly where
  the C code can wrap (`ALIGN`, subtraction, additions stored into header
  fields).
* The intrusive block list (global `head` plus `next` pointers) is modelled
  as an ordered list of `(address, header)` pairs; the `next` pointer of an
  element is the address of its successor in the list (0 for the tail).
* Byte memory is `Nat → Nat`.  Every header store of the C code also
  serializes the written fields into byte memory (LP64 layout), so stale
  header bytes of blocks that were merged away remain readable, exactly as
  in the C program; `os_realloc` reads `block->size` through such a stale
  header after freeing the block.
* `sbrk` and `mmap` are modelled as always succeeding (the C program treats
  any failure as fatal process termination) and as returning zero-filled
  memory, as the kernel does.  `sbrk` bump-allocates from `brk`; `mmap`
  bump-allocates page-aligned regions from `mmapNext`, which starts at a
  high base so mapped regions never collide with the program break.
* Calls of the OS primitives are recorded in an event trace so that claims
  about the lengths passed to `mmap`/`munmap` can be stated.
-/

/-- Machine-word modulus: `size_t` values are naturals mod 2^64. -/
def two64 : Nat := 18446744073709551616

/-- C macro `ALIGN(size) = (((size) + 7) & ~7)` evaluated on `size_t`:
round up to a multiple of 8, with 64-bit wraparound of the addition. -/
def ALIGN (n : Nat) : Nat := (n + 7) % two64 / 8 * 8

/-- Wrapping `size_t` subtraction `a - b` (for `a < 2^64`). -/
def csub (a b : Nat) : Nat := (a + two64 - b % two64) % two64

/-- Modelled from the spec: `sizeof(struct block_meta)`.  The struct is
declared in `osmem.h`/`helpers.h`, which are not part of the sources; the
spec describes it as a fixed-layout record with three fields (a `size_t`
payload length, a `next` pointer, an `int` status tag), which on the LP64
target platform occupies 8 + 8 + 4 bytes padded to 24. -/
def BLOCK_META_SIZE : Nat := 24

/-- `PREALLOC_SIZE` = 128 KiB. -/
def PREALLOC_SIZE : Nat := 131072

/-- Modelled from the spec: `getpagesize()`; the spec's scenario 6 fixes a
system with 4 KiB pages. -/
def PAGE_SIZE : Nat := 4096

/-- Base address of the modelled `mmap` arena (2^51): far above any address
the program break can reach in the modelled traces. -/
def mmapBase : Nat := 2251799813685248

/-- Status tag of a block header: `STATUS_FREE`, `STATUS_ALLOC`,
`STATUS_MAPPED` (declared in the missing `osmem.h`; modelled from the
spec's tag set `{FREE, ALLOCATED, MAPPED}`). -/
inductive Status where
  | free
  | alloc
  | mapped
  deriving DecidableEq, Repr

/-- Numeric encoding of the status tag as stored in the `int` field. -/
def statusCode : Status → Nat
  | .free => 0
  | .alloc => 1
  | .mapped => 2

/-- The two header fields of `struct block_meta` besides `next` (the `next`
pointer is represented by list order). -/
structure BlockMeta where
  size : Nat
  status : Status
  deriving DecidableEq, Repr

/-- Byte memory: address → byte value. -/
abbrev Mem := Nat → Nat

/-- Little-endian byte `i` of the value `v`. -/
def leByte (v i : Nat) : Nat := v / 256 ^ i % 256

/-- Serialize a header store at address `a`: the `size_t` size at offset 0,
the `next` pointer at offset 8, the `int` status at offset 16 (bytes 20-23
are struct padding and are never written). -/
def writeHdrMem (m : Mem) (a sz nx st : Nat) : Mem := fun x =>
  if a ≤ x ∧ x < a + 8 then leByte sz (x - a)
  else if a + 8 ≤ x ∧ x < a + 16 then leByte nx (x - (a + 8))
  else if a + 16 ≤ x ∧ x < a + 20 then leByte st (x - (a + 16))
  else m x

/-- Read the `size` field of a header from byte memory (used where the C
code dereferences a header that may no longer be in the block list). -/
def readHdrSizeMem (m : Mem) (a : Nat) : Nat :=
  m a + m (a + 1) * 256 + m (a + 2) * 65536 + m (a + 3) * 16777216 +
  m (a + 4) * 4294967296 + m (a + 5) * 1099511627776 +
  m (a + 6) * 281474976710656 + m (a + 7) * 72057594037927936

/-- Read the `status` field of a header from byte memory. -/
def readHdrStatusMem (m : Mem) (a : Nat) : Nat :=
  m (a + 16) + m (a + 17) * 256 + m (a + 18) * 65536 + m (a + 19) * 16777216

/-- Zero-fill `n` bytes starting at `a` (fresh kernel memory). -/
def zeroRegion (m : Mem) (a n : Nat) : Mem := fun x =>
  if a ≤ x ∧ x < a + n then 0 else m x

/-- C `memset(a, v, n)`. -/
def memsetMem (m : Mem) (a v n : Nat) : Mem := fun x =>
  if a ≤ x ∧ x < a + n then v else m x

/-- C `memmove(dst, src, n)`: every destination byte receives the value the
source held before the call (memmove copies as if through a buffer). -/
def memmoveMem (m : Mem) (dst src n : Nat) : Mem := fun x =>
  if dst ≤ x ∧ x < dst + n then m (src + (x - dst)) else m x

/-- OS-primitive invocations, recorded most recent first. -/
inductive MemEvent where
  | sbrkEv (len : Nat)
  | mmapEv (addr len : Nat)
  | munmapEv (addr len : Nat)
  deriving DecidableEq, Repr

/-- Global allocator state: the block list (`head` plus the `next` chain),
byte memory, the program break, the next mmap address, `MAP_THRESHOLD`,
the `heap_preallocated` flag, and the OS-event trace. -/
structure AllocState where
  blocks : List (Nat × BlockMeta)
  mem : Mem
  brk : Nat
  mmapNext : Nat
  threshold : Nat
  heapPrealloc : Bool
  events : List MemEvent

/-- Re-serialize every live header (its `size`, successor address, status)
into byte memory; applied after each list surgery, this writes exactly the
header fields the C code stores (unchanged headers are rewritten with the
bytes they already hold). -/
def resyncHdrs : List (Nat × BlockMeta) → Mem → Mem
  | [], m => m
  | [(a, b)], m => writeHdrMem m a b.size 0 (statusCode b.status)
  | (a, b) :: (a2, b2) :: rest, m =>
      resyncHdrs ((a2, b2) :: rest) (writeHdrMem m a b.size a2 (statusCode b.status))

/-- Replace the block list and keep the header bytes in sync. -/
def setBlocks (s : AllocState) (bs : List (Nat × BlockMeta)) : AllocState :=
  { s with blocks := bs, mem := resyncHdrs bs s.mem }

/-- First block with the given header address. -/
def lookupBlock : List (Nat × BlockMeta) → Nat → Option BlockMeta
  | [], _ => none
  | (a', b) :: rest, a => if a' = a then some b else lookupBlock rest a

/-- Successor (the `next` pointer) of the block at address `a`. -/
def succOf : List (Nat × BlockMeta) → Nat → Option (Nat × BlockMeta)
  | [], _ => none
  | (a', _) :: rest, a => if a' = a then rest.head? else succOf rest a

/-- Splice out the first block with address `a` (list part of
`remove_memory_block`). -/
def removeFirst : List (Nat × BlockMeta) → Nat → List (Nat × BlockMeta)
  | [], _ => []
  | (a', b) :: rest, a => if a' = a then rest else (a', b) :: removeFirst rest a

/-- Overwrite the status of the first block with address `a`
(the store `block->status = ...`). -/
def setStatusList : List (Nat × BlockMeta) → Nat → Status → List (Nat × BlockMeta)
  | [], _, _ => []
  | (a', b) :: rest, a, st =>
      if a' = a then (a', ⟨b.size, st⟩) :: rest else (a', b) :: setStatusList rest a st

/-- Replace the metadata of the last list element. -/
def updateLast : List (Nat × BlockMeta) → BlockMeta → List (Nat × BlockMeta)
  | [], _ => []
  | [(a, _)], bm => [(a, bm)]
  | x :: y :: rest, bm => x :: updateLast (y :: rest) bm

/-- `add_memory_block`: mapped blocks are prepended at the head, heap
blocks are appended at the tail; a `STATUS_FREE` block is appended only
during preallocation (`heap_preallocated == 0`), every other combination
hits `DIE` and is unreachable from the program's call sites. -/
def add_memory_block (s : AllocState) (a : Nat) (b : BlockMeta) : AllocState :=
  match b.status with
  | .mapped => setBlocks s ((a, b) :: s.blocks)
  | .alloc => setBlocks s (s.blocks ++ [(a, b)])
  | .free =>
      if s.heapPrealloc = false then setBlocks s (s.blocks ++ [(a, b)])
      else s

/-- `get_block_ptr`: payload handle → header address (`(block_meta *)ptr - 1`,
64-bit pointer arithmetic). -/
def get_block_ptr (p : Nat) : Nat := csub p BLOCK_META_SIZE

/-- `get_ptr_block`: header address → payload handle (`block + 1`). -/
def get_ptr_block (a : Nat) : Nat := (a + BLOCK_META_SIZE) % two64

/-- `is_block_in_memory`: linear membership test. -/
def is_block_in_memory (s : AllocState) (a : Nat) : Bool :=
  (lookupBlock s.blocks a).isSome

/-- `remove_memory_block`: splice the block out of the list; the C code
also clears the removed block's `next` field. -/
def remove_memory_block (s : AllocState) (a : Nat) : AllocState :=
  match lookupBlock s.blocks a with
  | none => s
  | some b =>
      let s1 := setBlocks s (removeFirst s.blocks a)
      { s1 with mem := writeHdrMem s1.mem a b.size 0 (statusCode b.status) }

/-- `request_memory(size)`: `total = ALIGN(size) + ALIGN(BLOCK_META_SIZE)`;
below `MAP_THRESHOLD` extend the break by `total` (status `ALLOC`),
otherwise map `total` bytes (status `MAPPED`).  The fresh header gets
payload size `ALIGN(size)` and `next = NULL`.  Failure of either primitive
is fatal in the C code, so the model lets both always succeed. -/
def request_memory (s : AllocState) (size : Nat) : (Nat × BlockMeta) × AllocState :=
  let total := (ALIGN size + ALIGN BLOCK_META_SIZE) % two64
  if total < s.threshold then
    let a := s.brk
    (⟨a, ⟨ALIGN size, .alloc⟩⟩,
      { s with brk := s.brk + total,
               mem := writeHdrMem (zeroRegion s.mem a total) a (ALIGN size) 0 (statusCode .alloc),
               events := .sbrkEv total :: s.events })
  else
    let a := s.mmapNext
    let mappedLen := (total + 4095) / 4096 * 4096
    (⟨a, ⟨ALIGN size, .mapped⟩⟩,
      { s with mmapNext := s.mmapNext + mappedLen,
               mem := writeHdrMem (zeroRegion s.mem a mappedLen) a (ALIGN size) 0 (statusCode .mapped),
               events := .mmapEv a total :: s.events })

/-- `preallocate_heap`: extend the break by 128 KiB in one shot and insert
the region as a single free block of payload
`PREALLOC_SIZE - ALIGN(BLOCK_META_SIZE)`. -/
def preallocate_heap (s : AllocState) : AllocState :=
  let a := s.brk
  let meta : BlockMeta := ⟨PREALLOC_SIZE - ALIGN BLOCK_META_SIZE, .free⟩
  let s1 : AllocState :=
    { s with brk := s.brk + PREALLOC_SIZE,
             mem := writeHdrMem (zeroRegion s.mem a PREALLOC_SIZE) a meta.size 0 (statusCode .free),
             events := .sbrkEv PREALLOC_SIZE :: s.events }
  add_memory_block s1 a meta

/-- `coalesce_blocks(block1, block2)` on the header values:
`block1->size += block2->size + ALIGN(BLOCK_META_SIZE)`, status `FREE`. -/
def coalesce_two (b1 b2 : BlockMeta) : BlockMeta :=
  ⟨(b1.size + b2.size + ALIGN BLOCK_META_SIZE) % two64, .free⟩

/-- The `coalesce_memory` loop on the list: walk adjacent pairs; when both
are free, merge them and continue from the merged block's successor
(`current = current->next` runs after the merge, so the merged block is
not compared against its new successor). -/
def coalesceList : List (Nat × BlockMeta) → List (Nat × BlockMeta)
  | [] => []
  | [x] => [x]
  | (a1, b1) :: (a2, b2) :: rest =>
      if b1.status = .free ∧ b2.status = .free then
        (a1, coalesce_two b1 b2) :: coalesceList rest
      else
        (a1, b1) :: coalesceList ((a2, b2) :: rest)

/-- `coalesce_memory` on the allocator state. -/
def coalesce_memory (s : AllocState) : AllocState :=
  setBlocks s (coalesceList s.blocks)

/-- The `split_block` surgery on the list: if
`block->size >= ALIGN(size) + ALIGN(BLOCK_META_SIZE) + 8`, carve a free
tail whose header sits at `block + ALIGN(BLOCK_META_SIZE) + ALIGN(size)`;
otherwise just mark the block `ALLOC`. -/
def splitList : List (Nat × BlockMeta) → Nat → Nat → List (Nat × BlockMeta)
  | [], _, _ => []
  | (a', b) :: rest, a, size =>
      if a' = a then
        if (ALIGN size + ALIGN BLOCK_META_SIZE + 8) % two64 ≤ b.size then
          (a, ⟨ALIGN size, .alloc⟩) ::
          (a + ALIGN BLOCK_META_SIZE + ALIGN size,
            ⟨csub (csub b.size (ALIGN size)) (ALIGN BLOCK_META_SIZE), .free⟩) :: rest
        else
          (a, ⟨b.size, .alloc⟩) :: rest
      else (a', b) :: splitList rest a size

/-- `split_block` on the allocator state. -/
def split_block (s : AllocState) (a size : Nat) : AllocState :=
  setBlocks s (splitList s.blocks a size)

/-- The scanning loop of `find_best_free_block`: keep the first seen free
block of size `≥ req`, replace it only when a strictly smaller sufficient
block appears (`best->size > current->size`). -/
def bestFitLoop (req : Nat) : List (Nat × BlockMeta) → Option (Nat × BlockMeta) → Option (Nat × BlockMeta)
  | [], best => best
  | (a, b) :: rest, best =>
      if b.status = .free ∧ req ≤ b.size then
        match best with
        | none => bestFitLoop req rest (some (a, b))
        | some (ab, bb) =>
            if bb.size > b.size then bestFitLoop req rest (some (a, b))
            else bestFitLoop req rest (some (ab, bb))
      else bestFitLoop req rest best

/-- `find_best_free_block`: coalesce the whole list, then scan it. -/
def find_best_free_block (s : AllocState) (req : Nat) : Option (Nat × BlockMeta) × AllocState :=
  let s1 := coalesce_memory s
  (bestFitLoop req s1.blocks none, s1)

/-- `find_last_free_block`: the last list entry if it is free.  (On an
empty list the C code would dereference NULL; that situation is
unreachable because the function is only called after preallocation.) -/
def find_last_free_block (s : AllocState) : Option (Nat × BlockMeta) :=
  match s.blocks.getLast? with
  | none => none
  | some (a, b) => if b.status = .free then some (a, b) else none

/-- `os_malloc`. -/
def os_malloc (s : AllocState) (size : Nat) : Option Nat × AllocState :=
  if size = 0 then (none, s)
  else
    let total := (ALIGN size + ALIGN BLOCK_META_SIZE) % two64
    if total < s.threshold then
      let s1 := if s.heapPrealloc then s else { preallocate_heap s with heapPrealloc := true }
      let fb := find_best_free_block s1 (ALIGN size)
      match fb.1 with
      | some (a, _) => (some (get_ptr_block a), split_block fb.2 a size)
      | none =>
          let s2 := fb.2
          match find_last_free_block s2 with
          | none =>
              let r := request_memory s2 size
              (some (get_ptr_block r.1.1), add_memory_block r.2 r.1.1 r.1.2)
          | some (la, lb) =>
              let r := request_memory s2 (csub (csub size lb.size) (ALIGN BLOCK_META_SIZE))
              let s4 := { r.2 with mem := writeHdrMem r.2.mem r.1.1 r.1.2.size 0 (statusCode .free) }
              let s5 := setBlocks s4
                (updateLast s4.blocks ⟨(lb.size + r.1.2.size + ALIGN BLOCK_META_SIZE) % two64, .alloc⟩)
              (some (get_ptr_block la), s5)
    else
      let r := request_memory s size
      (some (get_ptr_block r.1.1), add_memory_block r.2 r.1.1 r.1.2)

/-- `os_free`: null and unknown pointers are ignored; an `ALLOC` block is
marked free and the list coalesced; a `MAPPED` block is removed and
`munmap`ped with length `block->size + BLOCK_META_SIZE` (the raw struct
size, not the aligned footprint). -/
def os_free (s : AllocState) (ptr : Nat) : AllocState :=
  if ptr = 0 then s
  else
    let a := get_block_ptr ptr
    match lookupBlock s.blocks a with
    | none => s
    | some b =>
        if b.status = .alloc then
          coalesce_memory (setBlocks s (setStatusList s.blocks a .free))
        else if b.status = .mapped then
          { remove_memory_block s a with events := MemEvent.munmapEv a ((b.size + BLOCK_META_SIZE) % two64) :: (remove_memory_block s a).events }
        else s

/-- `os_calloc`: lower `MAP_THRESHOLD` to the page size, allocate
`nmemb * size` (a `size_t` product, hence reduced mod 2^64), restore the
threshold to 128 KiB, then `memset` the same wrapped product of bytes. -/
def os_calloc (s : AllocState) (nmemb size : Nat) : Option Nat × AllocState :=
  let s1 := { s with threshold := PAGE_SIZE }
  let r := os_malloc s1 ((nmemb * size) % two64)
  let s3 := { r.2 with threshold := 131072 }
  match r.1 with
  | none => (none, s3)
  | some p => (some p, { s3 with mem := memsetMem s3.mem p 0 ((nmemb * size) % two64) })

/-- Status of the header at address `a` as the C code reads it: the list
entry when the block is live, otherwise the (possibly stale) header bytes. -/
def hdrStatus (s : AllocState) (a : Nat) : Nat :=
  match lookupBlock s.blocks a with
  | some b => statusCode b.status
  | none => readHdrStatusMem s.mem a

/-- Size field of the header at address `a` as the C code reads it. -/
def hdrSize (s : AllocState) (a : Nat) : Nat :=
  match lookupBlock s.blocks a with
  | some b => b.size
  | none => readHdrSizeMem s.mem a

/-- The absorb-successor surgery of `os_realloc`:
`block->size += block->next->size + ALIGN(BLOCK_META_SIZE)`, unlink the
successor, mark the block `ALLOC`. -/
def absorbNext : List (Nat × BlockMeta) → Nat → List (Nat × BlockMeta)
  | (a', b) :: (a2, b2) :: rest, a =>
      if a' = a then
        (a', ⟨(b.size + b2.size + ALIGN BLOCK_META_SIZE) % two64, .alloc⟩) :: rest
      else (a', b) :: absorbNext ((a2, b2) :: rest) a
  | l, _ => l

/-- The allocate-new, copy, free-old sequence shared by the non-tail heap
branch and the mapped branch of `os_realloc`. -/
def mallocCopyFreeOld (s : AllocState) (ptr a sz : Nat) : Option Nat × AllocState :=
  let r := os_malloc s sz
  match r.1 with
  | none => (none, r.2)
  | some q =>
      let s4 := { r.2 with mem := memmoveMem r.2.mem q ptr (min (hdrSize r.2 a) sz) }
      (some q, os_free s4 ptr)

/-- `os_realloc`. -/
def os_realloc (s : AllocState) (ptr size : Nat) : Option Nat × AllocState :=
  if ptr = 0 then os_malloc s size
  else if size = 0 then (none, os_free s ptr)
  else
    let a := get_block_ptr ptr
    if hdrStatus s a = statusCode .free then (none, s)
    else
      let sz := ALIGN size
      if hdrSize s a = sz then (some ptr, s)
      else if hdrStatus s a = statusCode .alloc then
        if sz < hdrSize s a then (some ptr, split_block s a sz)
        else
          let s1 := coalesce_memory s
          match succOf s1.blocks a with
          | some (_, b2) =>
              if b2.status = .free ∧ sz ≤ (hdrSize s1 a + b2.size + ALIGN BLOCK_META_SIZE) % two64 then
                (some ptr, split_block (setBlocks s1 (absorbNext s1.blocks a)) a sz)
              else
                mallocCopyFreeOld s1 ptr a sz
          | none =>
              let s2 := os_free s1 ptr
              let r := os_malloc s2 sz
              match r.1 with
              | none => (none, r.2)
              | some q =>
                  (some q, { r.2 with mem := memmoveMem r.2.mem q ptr (min (hdrSize r.2 a) sz) })
      else if hdrStatus s a = statusCode .mapped then
        mallocCopyFreeOld s ptr a sz
      else (none, s)

/-- A store by the client program into its own payload (not allocator
code; used to state payload-content properties). -/
def clientStore (s : AllocState) (a v : Nat) : AllocState :=
  { s with mem := fun x => if x = a then v % 256 else s.mem x }

/-- The allocator's initial state: empty list, break at 0, mmap arena at
`mmapBase`, `MAP_THRESHOLD = 128 KiB`, heap not preallocated. -/
def freshState : AllocState :=
  { blocks := [], mem := fun _ => 0, brk := 0, mmapNext := mmapBase,
    threshold := 131072, heapPrealloc := false, events := [] }

/-- A client-visible step: one public allocator call or one client store. -/
inductive Op where
  | mallocOp (size : Nat)
  | freeOp (ptr : Nat)
  | callocOp (nmemb size : Nat)
  | reallocOp (ptr size : Nat)
  | storeOp (a v : Nat)
  deriving Repr

/-- Apply one step to the state (return values are recomputed by theorems
that need them). -/
def stepOp (s : AllocState) : Op → AllocState
  | .mallocOp n => (os_malloc s n).2
  | .freeOp p => os_free s p
  | .callocOp n m => (os_calloc s n m).2
  | .reallocOp p n => (os_realloc s p n).2
  | .storeOp a v => clientStore s a v

/-- Run a sequence of steps from a state. -/
def runOps (s : AllocState) : List Op → AllocState
  | [] => s
  | op :: rest => runOps (stepOp s op) rest

/-- The spec's mathematical alignment: round `n` up to a multiple of 8
(no machine wraparound); used to compare the code's `ALIGN` against the
spec's words. -/
def alignSpec (n : Nat) : Nat := (n + 7) / 8 * 8

/-- The spec's invariant, stated from its words: no two list-adjacent
blocks are both `FREE`. -/
def noAdjacentFree : List (Nat × BlockMeta) → Bool
  | (_, b1) :: (a2, b2) :: rest =>
      !(b1.status == Status.free && b2.status == Status.free) &&
      noAdjacentFree ((a2, b2) :: rest)
  | _ => true

/-- C1: evaluating the code on the spec's own scenario
`p = allocate(200); q = allocate(300); free(p); free(q)` from a fresh
allocator.  The coalesce pass advances past a merged block without
re-examining it against its new successor, so after the second free the
list holds TWO adjacent `FREE` blocks (payloads 528 and 130496), not one
`FREE` block of the full preallocation payload 131048; the claimed
invariant `noAdjacentFree` is violated. -/
theorem claim_C1_failing_eval :
    (os_malloc freshState 200).1 = some 24 ∧
    (os_malloc (os_malloc freshState 200).2 300).1 = some 248 ∧
    (runOps freshState [.mallocOp 200, .mallocOp 300, .freeOp 24, .freeOp 248]).blocks
      = [(0, ⟨528, .free⟩), (552, ⟨130496, .free⟩)] ∧
    noAdjacentFree
      (runOps freshState [.mallocOp 200, .mallocOp 300, .freeOp 24, .freeOp 248]).blocks
      = false ∧
    PREALLOC_SIZE - ALIGN BLOCK_META_SIZE = 131048 := by
  refine ⟨by decide, by decide, by decide, by decide, by decide⟩

/-- C2: evaluating the code on the failing input
`a = allocate(64); b = allocate(130960); b[130880] := 0xAA; free(a);
resize(b, 130968)`.  The resize targets an `ALLOCATED` tail block that
must grow; the code frees it before copying, the freed tail merges with
its free predecessor, the subsequent allocation splits the merged block
and writes the new free header over byte 130880 of `b`'s old payload, and
the copy then transports the clobbered byte: offset 130880 of the returned
payload holds 56 (a header byte) instead of the original 0xAA = 170, even
though 130880 < min(old_size, align8(n)) = 130960. -/
theorem claim_C2_failing_eval :
    (os_malloc freshState 64).1 = some 24 ∧
    (os_malloc (os_malloc freshState 64).2 130960).1 = some 112 ∧
    (runOps freshState [.mallocOp 64, .mallocOp 130960, .storeOp 130992 170, .freeOp 24]).mem
      (112 + 130880) = 170 ∧
    (os_realloc
      (runOps freshState [.mallocOp 64, .mallocOp 130960, .storeOp 130992 170, .freeOp 24])
      112 130968).1 = some 24 ∧
    (os_realloc
      (runOps freshState [.mallocOp 64, .mallocOp 130960, .storeOp 130992 170, .freeOp 24])
      112 130968).2.mem (24 + 130880) = 56 ∧
    130880 < min 130960 (ALIGN 130968) := by
  refine ⟨by decide, by decide, by decide, by decide, by decide, by decide⟩

/-- C3 counterexample: at `size = 2^64 - 1` the macro `ALIGN` wraps to 0,
so `allocate(2^64 - 1)` returns a non-null handle whose block has payload
size 0, strictly below the spec's `align8(size)`. -/
theorem claim_C3_counterexample :
    (os_malloc freshState 18446744073709551615).1 = some 24 ∧
    lookupBlock (os_malloc freshState 18446744073709551615).2.blocks
      (get_block_ptr 24) = some ⟨0, .alloc⟩ ∧
    (0 : Nat) < alignSpec 18446744073709551615 := by
  refine ⟨by decide, by decide, by decide⟩

/-- C4 counterexample: from a fresh allocator run
`p = allocate(8); p[4] := 0xFF; free(p); q = zero_allocate(1, 4)`.  The
allocator recycles the same block for `q`, and the final `memset` zeroes
only `1*4 = 4` bytes, so byte 4 of the returned payload still holds 0xFF
= 255 although the claim requires the first `align8(4) = 8` payload bytes
to be zero. -/
theorem claim_C4_counterexample :
    (os_calloc (runOps freshState [.mallocOp 8, .storeOp 28 255, .freeOp 24]) 1 4).1
      = some 24 ∧
    (os_calloc (runOps freshState [.mallocOp 8, .storeOp 28 255, .freeOp 24]) 1 4).2.mem
      (24 + 4) = 255 ∧
    (1 * 4 : Nat) < alignSpec (1 * 4) := by
  refine ⟨by decide, by decide, by decide⟩

/-- C8: `allocate(0)` returns the null handle and performs no state
change at all: list, preallocation flag, threshold, break, mmap cursor,
byte memory and the OS-event trace are exactly those of the pre-state. -/
theorem claim_C8 (s : AllocState) :
    (os_malloc s 0).1 = none ∧ (os_malloc s 0).2 = s ∧
    (os_malloc s 0).2.blocks = s.blocks ∧
    (os_malloc s 0).2.heapPrealloc = s.heapPrealloc ∧
    (os_malloc s 0).2.threshold = s.threshold ∧
    (os_malloc s 0).2.events = s.events := by
  simp [os_malloc]

/-- C10: `zero_allocate` depends on its two arguments only through the
`size_t` product `(k*s) mod 2^64` — both the inner allocation request and
the `memset` length use the wrapped product — and for the concrete
overflowing pair `k = 2^32`, `s = 2^32 + 1` (mathematical product
`2^64 + 2^32 ≥ 2^64`) it returns a non-null payload whose block holds only
`2^32 = (k*s) mod 2^64` bytes. -/
theorem claim_C10 :
    (∀ (s : AllocState) (k m : Nat), os_calloc s k m = os_calloc s ((k * m) % two64) 1) ∧
    two64 ≤ 4294967296 * 4294967297 ∧
    (os_calloc freshState 4294967296 4294967297).1 = some (mmapBase + 24) ∧
    (os_calloc freshState 4294967296 4294967297).2.blocks
      = [(mmapBase, ⟨4294967296, .mapped⟩)] := by
  refine ⟨fun s k m => ?_, by decide, by decide, by decide⟩
  unfold os_calloc
  rw [Nat.mul_one, Nat.mod_mod_of_dvd _ dvd_rfl]

/-- A block satisfying the best-fit search predicate: `FREE` and at least
the requested size. -/
def fitsReq (req : Nat) (x : Nat × BlockMeta) : Prop :=
  x.2.status = Status.free ∧ req ≤ x.2.size

instance (req : Nat) (x : Nat × BlockMeta) : Decidable (fitsReq req x) := by
  unfold fitsReq; infer_instance

/-- Unfolding of the scan on a fitting head with NULL accumulator. -/
theorem bestFitLoop_cons_fit_none (req a : Nat) (b : BlockMeta)
    (rest : List (Nat × BlockMeta)) (hf : b.status = Status.free ∧ req ≤ b.size) :
    bestFitLoop req ((a, b) :: rest) none = bestFitLoop req rest (some (a, b)) := by
  simp only [bestFitLoop]
  rw [if_pos hf]

/-- Unfolding of the scan on a fitting head with a non-NULL accumulator:
replace only when the accumulator is strictly larger. -/
theorem bestFitLoop_cons_fit_some (req a ab : Nat) (b bb : BlockMeta)
    (rest : List (Nat × BlockMeta)) (hf : b.status = Status.free ∧ req ≤ b.size) :
    bestFitLoop req ((a, b) :: rest) (some (ab, bb)) =
      if bb.size > b.size then bestFitLoop req rest (some (a, b))
      else bestFitLoop req rest (some (ab, bb)) := by
  simp only [bestFitLoop]
  rw [if_pos hf]

/-- Unfolding of the scan on a non-fitting head. -/
theorem bestFitLoop_cons_nofit (req a : Nat) (b : BlockMeta)
    (rest : List (Nat × BlockMeta)) (acc : Option (Nat × BlockMeta))
    (hf : ¬ (b.status = Status.free ∧ req ≤ b.size)) :
    bestFitLoop req ((a, b) :: rest) acc = bestFitLoop req rest acc := by
  simp only [bestFitLoop]
  rw [if_neg hf]

/-- If the scan returns NULL, the accumulator was NULL and no scanned block
fits. -/
theorem bestFitLoop_none (req : Nat) (l : List (Nat × BlockMeta)) :
    ∀ acc, bestFitLoop req l acc = none → acc = none ∧ ∀ x ∈ l, ¬ fitsReq req x := by
  induction l with
  | nil => exact fun acc h => ⟨h, by simp⟩
  | cons hd rest ih =>
      obtain ⟨a, b⟩ := hd
      intro acc h
      by_cases hf : b.status = Status.free ∧ req ≤ b.size
      · exfalso
        rcases acc with _ | ⟨ab, bb⟩
        · rw [bestFitLoop_cons_fit_none req a b rest hf] at h
          exact absurd (ih (some (a, b)) h).1 (by simp)
        · rw [bestFitLoop_cons_fit_some req a ab b bb rest hf] at h
          by_cases hgt : bb.size > b.size
          · rw [if_pos hgt] at h
            exact absurd (ih (some (a, b)) h).1 (by simp)
          · rw [if_neg hgt] at h
            exact absurd (ih (some (ab, bb)) h).1 (by simp)
      · rw [bestFitLoop_cons_nofit req a b rest acc hf] at h
        obtain ⟨h1, h2⟩ := ih acc h
        refine ⟨h1, ?_⟩
        intro x hx
        rcases List.mem_cons.mp hx with hx | hx
        · subst hx; exact hf
        · exact h2 x hx

/-- The scan result is no larger than any fitting scanned block and no
larger than the accumulator. -/
theorem bestFitLoop_min (req : Nat) (l : List (Nat × BlockMeta)) :
    ∀ acc y, bestFitLoop req l acc = some y →
      (∀ x ∈ l, fitsReq req x → y.2.size ≤ x.2.size) ∧
      (∀ b, acc = some b → y.2.size ≤ b.2.size) := by
  induction l with
  | nil =>
      intro acc y h
      refine ⟨by simp, ?_⟩
      intro b hb
      simp only [bestFitLoop] at h
      rw [hb] at h
      cases h
      exact le_refl _
  | cons hd rest ih =>
      obtain ⟨a, b⟩ := hd
      intro acc y h
      by_cases hf : b.status = Status.free ∧ req ≤ b.size
      · rcases acc with _ | ⟨ab, bb⟩
        · rw [bestFitLoop_cons_fit_none req a b rest hf] at h
          obtain ⟨hrest, hacc⟩ := ih (some (a, b)) y h
          refine ⟨?_, by simp⟩
          intro x hx hfx
          rcases List.mem_cons.mp hx with hx | hx
          · subst hx; exact hacc (a, b) rfl
          · exact hrest x hx hfx
        · rw [bestFitLoop_cons_fit_some req a ab b bb rest hf] at h
          by_cases hgt : bb.size > b.size
          · rw [if_pos hgt] at h
            obtain ⟨hrest, hacc⟩ := ih (some (a, b)) y h
            have hyb : y.2.size ≤ b.size := hacc (a, b) rfl
            refine ⟨?_, ?_⟩
            · intro x hx hfx
              rcases List.mem_cons.mp hx with hx | hx
              · subst hx; exact hyb
              · exact hrest x hx hfx
            · intro c hc
              cases hc
              exact le_trans hyb (le_of_lt hgt)
          · rw [if_neg hgt] at h
            obtain ⟨hrest, hacc⟩ := ih (some (ab, bb)) y h
            have hyb : y.2.size ≤ bb.size := hacc (ab, bb) rfl
            refine ⟨?_, ?_⟩
            · intro x hx hfx
              rcases List.mem_cons.mp hx with hx | hx
              · subst hx; exact le_trans hyb (le_of_not_lt hgt)
              · exact hrest x hx hfx
            · intro c hc
              cases hc
              exact hyb
      · rw [bestFitLoop_cons_nofit req a b rest acc hf] at h
        obtain ⟨hrest, hacc⟩ := ih acc y h
        refine ⟨?_, hacc⟩
        intro x hx hfx
        rcases List.mem_cons.mp hx with hx | hx
        · subst hx; exact absurd hfx hf
        · exact hrest x hx hfx

/-- The scan result is either the accumulator, or a fitting block of the
list that is strictly smaller than the accumulator and than every fitting
block left of it (first match wins among equally-sized candidates). -/
theorem bestFitLoop_pos (req : Nat) (l : List (Nat × BlockMeta)) :
    ∀ acc y, bestFitLoop req l acc = some y →
      acc = some y ∨
      ∃ l1 l2, l = l1 ++ y :: l2 ∧ fitsReq req y ∧
        (∀ x ∈ l1, fitsReq req x → y.2.size < x.2.size) ∧
        (∀ b, acc = some b → y.2.size < b.2.size) := by
  induction l with
  | nil =>
      intro acc y h
      simp only [bestFitLoop] at h
      exact Or.inl h
  | cons hd rest ih =>
      obtain ⟨a, b⟩ := hd
      intro acc y h
      by_cases hf : b.status = Status.free ∧ req ≤ b.size
      · rcases acc with _ | ⟨ab, bb⟩
        · rw [bestFitLoop_cons_fit_none req a b rest hf] at h
          rcases ih (some (a, b)) y h with heq | ⟨l1, l2, hl, hfy, hlt, hac⟩
          · cases heq
            exact Or.inr ⟨[], rest, rfl, hf, by simp, by simp⟩
          · refine Or.inr ⟨(a, b) :: l1, l2, by rw [hl]; rfl, hfy, ?_, by simp⟩
            intro x hx hfx
            rcases List.mem_cons.mp hx with hx | hx
            · subst hx; exact hac (a, b) rfl
            · exact hlt x hx hfx
        · rw [bestFitLoop_cons_fit_some req a ab b bb rest hf] at h
          by_cases hgt : bb.size > b.size
          · rw [if_pos hgt] at h
            rcases ih (some (a, b)) y h with heq | ⟨l1, l2, hl, hfy, hlt, hac⟩
            · cases heq
              refine Or.inr ⟨[], rest, rfl, hf, by simp, ?_⟩
              intro c hc
              cases hc
              exact hgt
            · refine Or.inr ⟨(a, b) :: l1, l2, by rw [hl]; rfl, hfy, ?_, ?_⟩
              · intro x hx hfx
                rcases List.mem_cons.mp hx with hx | hx
                · subst hx; exact hac (a, b) rfl
                · exact hlt x hx hfx
              · intro c hc
                cases hc
                exact lt_trans (hac (a, b) rfl) hgt
          · rw [if_neg hgt] at h
            rcases ih (some (ab, bb)) y h with heq | ⟨l1, l2, hl, hfy, hlt, hac⟩
            · exact Or.inl heq
            · refine Or.inr ⟨(a, b) :: l1, l2, by rw [hl]; rfl, hfy, ?_, ?_⟩
              · intro x hx hfx
                rcases List.mem_cons.mp hx with hx | hx
                · subst hx
                  exact lt_of_lt_of_le (hac (ab, bb) rfl) (le_of_not_lt hgt)
                · exact hlt x hx hfx
              · intro c hc
                cases hc
                exact hac (ab, bb) rfl
      · rw [bestFitLoop_cons_nofit req a b rest acc hf] at h
        rcases ih acc y h with heq | ⟨l1, l2, hl, hfy, hlt, hac⟩
        · exact Or.inl heq
        · refine Or.inr ⟨(a, b) :: l1, l2, by rw [hl]; rfl, hfy, ?_, hac⟩
          intro x hx hfx
          rcases List.mem_cons.mp hx with hx | hx
          · subst hx; exact absurd hfx hf
          · exact hlt x hx hfx

/-- C5: `find_best_free_block` first coalesces the whole list; on the
coalesced list it returns NULL iff no `FREE` block is at least the
request, and otherwise returns a `FREE` block of size at least the
request that is of smallest size among all sufficient `FREE` blocks,
every fitting block strictly left of it being strictly larger (so the
earliest block wins among equally-sized candidates). -/
theorem claim_C5 (s : AllocState) (req : Nat) :
    (find_best_free_block s req).2.blocks = coalesceList s.blocks ∧
    ((find_best_free_block s req).1 = none →
      ∀ x ∈ coalesceList s.blocks, ¬ fitsReq req x) ∧
    (∀ y, (find_best_free_block s req).1 = some y →
      fitsReq req y ∧
      (∀ x ∈ coalesceList s.blocks, fitsReq req x → y.2.size ≤ x.2.size) ∧
      ∃ l1 l2, coalesceList s.blocks = l1 ++ y :: l2 ∧
        (∀ x ∈ l1, fitsReq req x → y.2.size < x.2.size)) := by
  have hfb : (find_best_free_block s req).1 = bestFitLoop req (coalesceList s.blocks) none := rfl
  refine ⟨rfl, ?_, ?_⟩
  · intro h
    exact (bestFitLoop_none req (coalesceList s.blocks) none (hfb ▸ h)).2
  · intro y h
    rw [hfb] at h
    rcases bestFitLoop_pos req (coalesceList s.blocks) none y h with heq | ⟨l1, l2, hl, hfy, hlt, _⟩
    · cases heq
    · exact ⟨hfy, (bestFitLoop_min req (coalesceList s.blocks) none y h).1,
        l1, l2, hl, hlt⟩

/-- C5 witness: on the list left by the C1 trace (two free blocks that the
coalesce pass merges into one of payload 131048) the search finds that
block for request 300, and finds nothing for request 200000. -/
theorem claim_C5_witness :
    (fitsReq 300 (0, ⟨131048, .free⟩) ∧
      (∀ x ∈ coalesceList (runOps freshState
          [.mallocOp 200, .mallocOp 300, .freeOp 24, .freeOp 248]).blocks,
        fitsReq 300 x → (131048 : Nat) ≤ x.2.size) ∧
      ∃ l1 l2, coalesceList (runOps freshState
          [.mallocOp 200, .mallocOp 300, .freeOp 24, .freeOp 248]).blocks
          = l1 ++ (0, ⟨131048, .free⟩) :: l2 ∧
        (∀ x ∈ l1, fitsReq 300 x → (131048 : Nat) < x.2.size)) ∧
    (∀ x ∈ coalesceList (runOps freshState
        [.mallocOp 200, .mallocOp 300, .freeOp 24, .freeOp 248]).blocks,
      ¬ fitsReq 200000 x) :=
  ⟨(claim_C5 (runOps freshState
      [.mallocOp 200, .mallocOp 300, .freeOp 24, .freeOp 248]) 300).2.2
      (0, ⟨131048, .free⟩) (by decide),
   (claim_C5 (runOps freshState
      [.mallocOp 200, .mallocOp 300, .freeOp 24, .freeOp 248]) 200000).2.1 (by decide)⟩

/-- C7: `free` is a no-op on the null handle and on any handle whose
header address is not in the block list, and `resize` with a positive new
size on a handle whose live header is `FREE` returns null and leaves the
state unchanged. -/
theorem claim_C7 (s : AllocState) (p n : Nat) :
    os_free s 0 = s ∧
    (lookupBlock s.blocks (get_block_ptr p) = none → os_free s p = s) ∧
    (∀ b, p ≠ 0 → 0 < n → lookupBlock s.blocks (get_block_ptr p) = some b →
      b.status = Status.free → os_realloc s p n = (none, s)) := by
  refine ⟨by simp [os_free], ?_, ?_⟩
  · intro h
    by_cases hp : p = 0
    · simp [os_free, hp]
    · simp [os_free, hp, h]
  · intro b hp hn hl hst
    have hn' : n ≠ 0 := Nat.pos_iff_ne_zero.mp hn
    have hstc : hdrStatus s (get_block_ptr p) = statusCode Status.free := by
      simp [hdrStatus, hl, hst]
    simp [os_realloc, hp, hn', hstc]

/-- C7 witness: in the state after `p = allocate(8); free(p)` (one free
block at header address 0), freeing the unknown pointer 333 is a no-op
and resizing the freed handle 24 to 16 bytes yields null with no state
change. -/
theorem claim_C7_witness :
    os_free (runOps freshState [.mallocOp 8, .freeOp 24]) 333
      = runOps freshState [.mallocOp 8, .freeOp 24] ∧
    os_realloc (runOps freshState [.mallocOp 8, .freeOp 24]) 24 16
      = (none, runOps freshState [.mallocOp 8, .freeOp 24]) :=
  ⟨(claim_C7 (runOps freshState [.mallocOp 8, .freeOp 24]) 333 16).2.1 (by decide),
   (claim_C7 (runOps freshState [.mallocOp 8, .freeOp 24]) 24 16).2.2
     ⟨131048, .free⟩ (by decide) (by decide) (by decide) (by decide)⟩

/-- C9: for a live header that is `ALLOCATED` or `MAPPED`, `resize(p, n)`
with `ALIGN(n)` equal to the current payload size returns `p` itself with
no state change; in particular `resize(p, current_payload_size) == p`
because payload sizes are multiples of 8. -/
theorem claim_C9 (s : AllocState) (p n : Nat) (b : BlockMeta)
    (hp : p ≠ 0) (hl : lookupBlock s.blocks (get_block_ptr p) = some b)
    (hst : b.status ≠ Status.free) :
    (0 < n → ALIGN n = b.size → os_realloc s p n = (some p, s)) ∧
    (b.size % 8 = 0 → b.size < two64 → 0 < b.size → os_realloc s p b.size = (some p, s)) := by
  have hstc : hdrStatus s (get_block_ptr p) ≠ statusCode Status.free := by
    simp only [hdrStatus, hl]
    intro hc
    apply hst
    cases hs : b.status
    · rfl
    · rw [hs] at hc; exact absurd hc (by decide)
    · rw [hs] at hc; exact absurd hc (by decide)
  have hkey : ∀ m, 0 < m → ALIGN m = b.size → os_realloc s p m = (some p, s) := by
    intro m hm ha
    have hm' : m ≠ 0 := Nat.pos_iff_ne_zero.mp hm
    have hsz : hdrSize s (get_block_ptr p) = ALIGN m := by
      simp [hdrSize, hl, ha]
    simp [os_realloc, hp, hm', hstc, hsz]
  refine ⟨hkey n, ?_⟩
  intro h8 hlt hpos
  refine hkey b.size hpos ?_
  unfold ALIGN two64
  unfold two64 at hlt
  omega

/-- C9 witness: after `allocate(8)` the block at header 0 is `ALLOCATED`
with payload 8; `resize(24, 5)` (since `ALIGN(5) = 8`) and
`resize(24, 8)` both return 24 and leave the state unchanged. -/
theorem claim_C9_witness :
    os_realloc ((os_malloc freshState 8).2) 24 5 = (some 24, (os_malloc freshState 8).2) ∧
    os_realloc ((os_malloc freshState 8).2) 24 8 = (some 24, (os_malloc freshState 8).2) :=
  ⟨(claim_C9 ((os_malloc freshState 8).2) 24 5 ⟨8, .alloc⟩
      (by decide) (by decide) (by decide)).1 (by decide) (by decide),
   (claim_C9 ((os_malloc freshState 8).2) 24 8 ⟨8, .alloc⟩
      (by decide) (by decide) (by decide)).2 (by decide) (by decide) (by decide)⟩

/-- On the modelled platform the aligned header footprint equals the raw
struct size (24 is already a multiple of 8). -/
theorem ALIGN_BMS : ALIGN BLOCK_META_SIZE = BLOCK_META_SIZE := by decide

/-- A successful lookup is a list member. -/
theorem lookupBlock_mem (bs : List (Nat × BlockMeta)) (a : Nat) (b : BlockMeta) :
    lookupBlock bs a = some b → (a, b) ∈ bs := by
  induction bs with
  | nil => intro h; simp [lookupBlock] at h
  | cons hd rest ih =>
      obtain ⟨a', b'⟩ := hd
      intro h
      simp only [lookupBlock] at h
      by_cases he : a' = a
      · rw [if_pos he] at h
        cases h
        subst he
        exact List.mem_cons_self _ _
      · rw [if_neg he] at h
        exact List.mem_cons_of_mem _ (ih h)

/-- Merged blocks are `FREE`, so every mapped block of the coalesced list
was already in the list. -/
theorem coalesceList_mapped (bs : List (Nat × BlockMeta)) :
    ∀ x ∈ coalesceList bs, x.2.status = Status.mapped → x ∈ bs := by
  induction bs using coalesceList.induct with
  | case1 => simp [coalesceList]
  | case2 y => simp [coalesceList]
  | case3 a1 b1 a2 b2 rest hc ih =>
      intro x hx hm
      simp only [coalesceList, if_pos hc] at hx
      rcases List.mem_cons.mp hx with rfl | hx
      · simp [coalesce_two] at hm
      · exact List.mem_cons_of_mem _ (List.mem_cons_of_mem _ (ih x hx hm))
  | case4 a1 b1 a2 b2 rest hc ih =>
      intro x hx hm
      simp only [coalesceList, if_neg hc] at hx
      rcases List.mem_cons.mp hx with rfl | hx
      · exact List.mem_cons_self _ _
      · exact List.mem_cons_of_mem _ (ih x hx hm)

/-- The blocks written by a split are `ALLOC` or `FREE`, so every mapped
block of the split list was already in the list. -/
theorem splitList_mapped (bs : List (Nat × BlockMeta)) (a n : Nat) :
    ∀ x ∈ splitList bs a n, x.2.status = Status.mapped → x ∈ bs := by
  induction bs with
  | nil => simp [splitList]
  | cons hd rest ih =>
      obtain ⟨a', b⟩ := hd
      intro x hx hm
      simp only [splitList] at hx
      by_cases he : a' = a
      · rw [if_pos he] at hx
        by_cases hg : (ALIGN n + ALIGN BLOCK_META_SIZE + 8) % two64 ≤ b.size
        · rw [if_pos hg] at hx
          rcases List.mem_cons.mp hx with rfl | hx
          · simp at hm
          · rcases List.mem_cons.mp hx with rfl | hx
            · simp at hm
            · exact List.mem_cons_of_mem _ hx
        · rw [if_neg hg] at hx
          rcases List.mem_cons.mp hx with rfl | hx
          · simp at hm
          · exact List.mem_cons_of_mem _ hx
      · rw [if_neg he] at hx
        rcases List.mem_cons.mp hx with rfl | hx
        · exact List.mem_cons_self _ _
        · exact List.mem_cons_of_mem _ (ih x hx hm)

/-- Flipping a block to `FREE` keeps every mapped block. -/
theorem setStatusList_mapped (bs : List (Nat × BlockMeta)) (a : Nat) :
    ∀ x ∈ setStatusList bs a Status.free, x.2.status = Status.mapped → x ∈ bs := by
  induction bs with
  | nil => simp [setStatusList]
  | cons hd rest ih =>
      obtain ⟨a', b⟩ := hd
      intro x hx hm
      simp only [setStatusList] at hx
      by_cases he : a' = a
      · rw [if_pos he] at hx
        rcases List.mem_cons.mp hx with rfl | hx
        · simp at hm
        · exact List.mem_cons_of_mem _ hx
      · rw [if_neg he] at hx
        rcases List.mem_cons.mp hx with rfl | hx
        · exact List.mem_cons_self _ _
        · exact List.mem_cons_of_mem _ (ih x hx hm)

/-- Removal only drops a block. -/
theorem removeFirst_mem (bs : List (Nat × BlockMeta)) (a : Nat) :
    ∀ x ∈ removeFirst bs a, x ∈ bs := by
  induction bs with
  | nil => simp [removeFirst]
  | cons hd rest ih =>
      obtain ⟨a', b⟩ := hd
      intro x hx
      simp only [removeFirst] at hx
      by_cases he : a' = a
      · rw [if_pos he] at hx
        exact List.mem_cons_of_mem _ hx
      · rw [if_neg he] at hx
        rcases List.mem_cons.mp hx with rfl | hx
        · exact List.mem_cons_self _ _
        · exact List.mem_cons_of_mem _ (ih x hx)

/-- Replacing the last element with a non-mapped header keeps every mapped
block. -/
theorem updateLast_mapped (bs : List (Nat × BlockMeta)) (bm : BlockMeta) :
    bm.status ≠ Status.mapped →
    ∀ x ∈ updateLast bs bm, x.2.status = Status.mapped → x ∈ bs := by
  induction bs, bm using updateLast.induct with
  | case1 bm => simp [updateLast]
  | case2 a b bm =>
      intro hbm x hx hm
      simp only [updateLast] at hx
      rcases List.mem_cons.mp hx with rfl | hx
      · exact absurd hm hbm
      · simp at hx
  | case3 y z rest bm ih =>
      intro hbm x hx hm
      simp only [updateLast] at hx
      rcases List.mem_cons.mp hx with rfl | hx
      · exact List.mem_cons_self _ _
      · exact List.mem_cons_of_mem _ (ih hbm x hx hm)

/-- Absorbing the free successor produces an `ALLOC` block, keeping every
mapped block. -/
theorem absorbNext_mapped (bs : List (Nat × BlockMeta)) (a : Nat) :
    ∀ x ∈ absorbNext bs a, x.2.status = Status.mapped → x ∈ bs := by
  induction bs, a using absorbNext.induct with
  | case1 b a2 b2 rest a =>
      intro x hx hm
      simp only [absorbNext, if_pos rfl] at hx
      rcases List.mem_cons.mp hx with rfl | hx
      · simp at hm
      · exact List.mem_cons_of_mem _ (List.mem_cons_of_mem _ hx)
  | case2 a' b a2 b2 rest a he ih =>
      intro x hx hm
      simp only [absorbNext, if_neg he] at hx
      rcases List.mem_cons.mp hx with rfl | hx
      · exact List.mem_cons_self _ _
      · exact List.mem_cons_of_mem _ (ih x hx hm)
  | case3 l a hl =>
      intro x hx hm
      have hab : absorbNext l a = l := by
        match l, hl with
        | [], _ => rfl
        | [(z1, z2)], _ => rfl
        | (a1, b1) :: (a2, b2) :: rest, hl => exact (hl a1 b1 a2 b2 rest rfl).elim
      rw [hab] at hx
      exact hx

/-- Unfolding of `os_free` on the null handle. -/
theorem os_free_null (s : AllocState) : os_free s 0 = s := by
  simp [os_free]

/-- Unfolding of `os_free` on an unknown handle. -/
theorem os_free_unknown (s : AllocState) (p : Nat) (hp : p ≠ 0)
    (hl : lookupBlock s.blocks (get_block_ptr p) = none) : os_free s p = s := by
  simp only [os_free]
  rw [if_neg hp, hl]

/-- Unfolding of `os_free` on a live handle. -/
theorem os_free_known (s : AllocState) (p : Nat) (b : BlockMeta) (hp : p ≠ 0)
    (hl : lookupBlock s.blocks (get_block_ptr p) = some b) :
    os_free s p =
      if b.status = Status.alloc then
        coalesce_memory (setBlocks s (setStatusList s.blocks (get_block_ptr p) .free))
      else if b.status = Status.mapped then
        { remove_memory_block s (get_block_ptr p) with events := MemEvent.munmapEv (get_block_ptr p) ((b.size + BLOCK_META_SIZE) % two64) :: (remove_memory_block s (get_block_ptr p)).events }
      else s := by
  simp only [os_free]
  rw [if_neg hp, hl]

/-- Correspondence between mapped blocks and the OS-event trace: every
`MAPPED` block in the list was acquired by an `mmap` of exactly
`size + BLOCK_META_SIZE` bytes, and every `munmap` so far matched a prior
`mmap` exactly (same address, same byte length). -/
def MappedOK (s : AllocState) : Prop :=
  (∀ x ∈ s.blocks, x.2.status = Status.mapped →
    MemEvent.mmapEv x.1 ((x.2.size + BLOCK_META_SIZE) % two64) ∈ s.events) ∧
  (∀ a l, MemEvent.munmapEv a l ∈ s.events → MemEvent.mmapEv a l ∈ s.events)

/-- `MappedOK` transfers along any state change that adds no mapped block
and keeps the events. -/
theorem mappedOK_of (s s' : AllocState) (h : MappedOK s)
    (hb : ∀ x ∈ s'.blocks, x.2.status = Status.mapped → x ∈ s.blocks)
    (he : s'.events = s.events) : MappedOK s' := by
  refine ⟨?_, ?_⟩
  · intro x hx hm
    rw [he]
    exact h.1 x (hb x hx hm) hm
  · intro a l hl
    rw [he] at hl ⊢
    exact h.2 a l hl

/-- `MappedOK` transfers along a state change that adds no mapped block
and pushes one non-`munmap` event. -/
theorem mappedOK_push (s s' : AllocState) (h : MappedOK s) (ev : MemEvent)
    (hb : ∀ x ∈ s'.blocks, x.2.status = Status.mapped → x ∈ s.blocks)
    (he : s'.events = ev :: s.events)
    (hev : ∀ a l, ev ≠ MemEvent.munmapEv a l) : MappedOK s' := by
  refine ⟨?_, ?_⟩
  · intro x hx hm
    rw [he]
    exact List.mem_cons_of_mem _ (h.1 x (hb x hx hm) hm)
  · intro a l hl
    rw [he] at hl ⊢
    rcases List.mem_cons.mp hl with heq | hold
    · exact absurd heq.symm (Ne.symm (hev a l) ∘ Eq.symm)
    · exact List.mem_cons_of_mem _ (h.2 a l hold)

theorem mappedOK_coalesce (s : AllocState) (h : MappedOK s) :
    MappedOK (coalesce_memory s) :=
  mappedOK_of s _ h (coalesceList_mapped s.blocks) rfl

theorem mappedOK_split (s : AllocState) (a n : Nat) (h : MappedOK s) :
    MappedOK (split_block s a n) :=
  mappedOK_of s _ h (splitList_mapped s.blocks a n) rfl

theorem mappedOK_setStatusFree (s : AllocState) (a : Nat) (h : MappedOK s) :
    MappedOK (setBlocks s (setStatusList s.blocks a Status.free)) :=
  mappedOK_of s _ h (setStatusList_mapped s.blocks a) rfl

/-- `MappedOK` is preserved by removing a mapped block and recording the
matching `munmap`. -/
theorem mappedOK_munmap (s : AllocState) (aa : Nat) (b : BlockMeta) (h : MappedOK s)
    (hmem : (aa, b) ∈ s.blocks) (hmp : b.status = Status.mapped) (s' : AllocState)
    (hb : s'.blocks = removeFirst s.blocks aa)
    (he : s'.events
      = MemEvent.munmapEv aa ((b.size + BLOCK_META_SIZE) % two64) :: s.events) :
    MappedOK s' := by
  have hev : MemEvent.mmapEv aa ((b.size + BLOCK_META_SIZE) % two64) ∈ s.events :=
    h.1 (aa, b) hmem hmp
  refine ⟨?_, ?_⟩
  · intro x hx hm
    rw [hb] at hx
    rw [he]
    exact List.mem_cons_of_mem _ (h.1 x (removeFirst_mem s.blocks _ x hx) hm)
  · intro a l hlm
    rw [he] at hlm ⊢
    rcases List.mem_cons.mp hlm with heq | hold
    · cases heq
      exact List.mem_cons_of_mem _ hev
    · exact List.mem_cons_of_mem _ (h.2 a l hold)

theorem mappedOK_os_free (s : AllocState) (p : Nat) (h : MappedOK s) :
    MappedOK (os_free s p) := by
  by_cases hp : p = 0
  · rw [hp, os_free_null]; exact h
  · cases hl : lookupBlock s.blocks (get_block_ptr p) with
    | none => rw [os_free_unknown s p hp hl]; exact h
    | some b =>
        rw [os_free_known s p b hp hl]
        by_cases ha : b.status = Status.alloc
        · rw [if_pos ha]
          exact mappedOK_coalesce _ (mappedOK_setStatusFree s _ h)
        · rw [if_neg ha]
          by_cases hmp : b.status = Status.mapped
          · rw [if_pos hmp]
            have hmem : (get_block_ptr p, b) ∈ s.blocks := lookupBlock_mem _ _ _ hl
            have hrb : (remove_memory_block s (get_block_ptr p)).blocks
                = removeFirst s.blocks (get_block_ptr p) := by
              unfold remove_memory_block
              rw [hl]
              rfl
            have hre : (remove_memory_block s (get_block_ptr p)).events = s.events := by
              unfold remove_memory_block
              rw [hl]
              rfl
            refine mappedOK_munmap s (get_block_ptr p) b h hmem hmp _ hrb ?_
            rw [hre]
          · rw [if_neg hmp]
            exact h

theorem mappedOK_add (s : AllocState) (a : Nat) (b : BlockMeta) (h : MappedOK s)
    (hb : b.status = Status.mapped →
      MemEvent.mmapEv a ((b.size + BLOCK_META_SIZE) % two64) ∈ s.events) :
    MappedOK (add_memory_block s a b) := by
  unfold add_memory_block
  cases hst : b.status with
  | mapped =>
      refine ⟨?_, ?_⟩
      · intro x hx hm
        rcases List.mem_cons.mp hx with rfl | hx
        · exact hb hst
        · exact h.1 x hx hm
      · exact h.2
  | alloc =>
      refine ⟨?_, ?_⟩
      · intro x hx hm
        rcases List.mem_append.mp hx with hx | hx
        · exact h.1 x hx hm
        · rcases List.mem_singleton.mp hx with rfl
          rw [hst] at hm
          exact absurd hm (by decide)
      · exact h.2
  | free =>
      by_cases hpre : s.heapPrealloc = false
      · rw [if_pos hpre]
        refine ⟨?_, ?_⟩
        · intro x hx hm
          rcases List.mem_append.mp hx with hx | hx
          · exact h.1 x hx hm
          · rcases List.mem_singleton.mp hx with rfl
            rw [hst] at hm
            exact absurd hm (by decide)
        · exact h.2
      · rw [if_neg hpre]
        exact h

theorem mappedOK_request (s : AllocState) (size : Nat) (h : MappedOK s) :
    MappedOK (request_memory s size).2 ∧
    (request_memory s size).2.blocks = s.blocks ∧
    ((request_memory s size).1.2.status = Status.mapped →
      MemEvent.mmapEv (request_memory s size).1.1
        (((request_memory s size).1.2.size + BLOCK_META_SIZE) % two64)
        ∈ (request_memory s size).2.events) := by
  unfold request_memory
  by_cases ht : (ALIGN size + ALIGN BLOCK_META_SIZE) % two64 < s.threshold
  · simp only [if_pos ht]
    refine ⟨mappedOK_push s _ h (.sbrkEv ((ALIGN size + ALIGN BLOCK_META_SIZE) % two64))
      (fun x hx hm => hx) rfl (by intro a l; exact fun hc => by cases hc), ?_, ?_⟩
    · trivial
    · intro hc
      exact absurd hc (by decide)
  · simp only [if_neg ht]
    refine ⟨mappedOK_push s _ h
      (.mmapEv s.mmapNext ((ALIGN size + ALIGN BLOCK_META_SIZE) % two64))
      (fun x hx hm => hx) rfl (by intro a l; exact fun hc => by cases hc), ?_, ?_⟩
    · trivial
    · intro _
      rw [ALIGN_BMS]
      exact List.mem_cons_self _ _

theorem mappedOK_prealloc (s : AllocState) (h : MappedOK s) :
    MappedOK (preallocate_heap s) := by
  unfold preallocate_heap
  refine mappedOK_add _ _ _ ?_ (fun hc => absurd hc (by decide))
  exact mappedOK_push s _ h (.sbrkEv PREALLOC_SIZE) (fun x hx hm => hx) rfl
    (by intro a l; exact fun hc => by cases hc)


/-- `MappedOK` only looks at the list and the events. -/
theorem mappedOK_same (s s' : AllocState) (hb : s'.blocks = s.blocks)
    (he : s'.events = s.events) (h : MappedOK s) : MappedOK s' := by
  refine mappedOK_of s s' h ?_ he
  intro x hx _
  rw [hb] at hx
  exact hx

theorem mappedOK_os_malloc (s : AllocState) (n : Nat) (h : MappedOK s) :
    MappedOK (os_malloc s n).2 := by
  simp only [os_malloc]
  by_cases h0 : n = 0
  · rw [if_pos h0]
    exact h
  · rw [if_neg h0]
    by_cases ht : (ALIGN n + ALIGN BLOCK_META_SIZE) % two64 < s.threshold
    · rw [if_pos ht]
      set s1 := if s.heapPrealloc = true then s
        else { preallocate_heap s with heapPrealloc := true } with hs1def
      have hs1 : MappedOK s1 := by
        rw [hs1def]
        by_cases hpre : s.heapPrealloc = true
        · rw [if_pos hpre]
          exact h
        · rw [if_neg hpre]
          exact mappedOK_same _ _ rfl rfl (mappedOK_prealloc s h)
      split
      · exact mappedOK_split _ _ n (mappedOK_coalesce s1 hs1)
      · split
        · exact mappedOK_add _ _ _ (mappedOK_request _ n (mappedOK_coalesce s1 hs1)).1
            (mappedOK_request _ n (mappedOK_coalesce s1 hs1)).2.2
        · refine mappedOK_of _ _ ?_ (updateLast_mapped _ _ (by simp)) rfl
          exact mappedOK_same _ _ rfl rfl
            (mappedOK_request _ _ (mappedOK_coalesce s1 hs1)).1
    · rw [if_neg ht]
      exact mappedOK_add _ _ _ (mappedOK_request s n h).1 (mappedOK_request s n h).2.2

theorem mappedOK_mcfo (s : AllocState) (ptr a sz : Nat) (h : MappedOK s) :
    MappedOK (mallocCopyFreeOld s ptr a sz).2 := by
  simp only [mallocCopyFreeOld]
  split
  · exact mappedOK_os_malloc s sz h
  · refine mappedOK_os_free _ ptr ?_
    exact mappedOK_same _ _ rfl rfl (mappedOK_os_malloc s sz h)

theorem mappedOK_os_realloc (s : AllocState) (ptr n : Nat) (h : MappedOK s) :
    MappedOK (os_realloc s ptr n).2 := by
  simp only [os_realloc]
  by_cases hp : ptr = 0
  · rw [if_pos hp]
    exact mappedOK_os_malloc s n h
  · rw [if_neg hp]
    by_cases h0 : n = 0
    · rw [if_pos h0]
      exact mappedOK_os_free s ptr h
    · rw [if_neg h0]
      by_cases hfree : hdrStatus s (get_block_ptr ptr) = statusCode Status.free
      · rw [if_pos hfree]
        exact h
      · rw [if_neg hfree]
        by_cases heq : hdrSize s (get_block_ptr ptr) = ALIGN n
        · rw [if_pos heq]
          exact h
        · rw [if_neg heq]
          by_cases halloc : hdrStatus s (get_block_ptr ptr) = statusCode Status.alloc
          · rw [if_pos halloc]
            by_cases hlt : ALIGN n < hdrSize s (get_block_ptr ptr)
            · rw [if_pos hlt]
              exact mappedOK_split s _ _ h
            · rw [if_neg hlt]
              split
              · split
                · refine mappedOK_split _ _ _ ?_
                  exact mappedOK_of _ _ (mappedOK_coalesce s h) (absorbNext_mapped _ _) rfl
                · exact mappedOK_mcfo _ ptr _ _ (mappedOK_coalesce s h)
              · split
                · exact mappedOK_os_malloc _ _
                    (mappedOK_os_free _ ptr (mappedOK_coalesce s h))
                · refine mappedOK_same _ _ rfl rfl ?_
                  exact mappedOK_os_malloc _ _
                    (mappedOK_os_free _ ptr (mappedOK_coalesce s h))
          · rw [if_neg halloc]
            by_cases hmp : hdrStatus s (get_block_ptr ptr) = statusCode Status.mapped
            · rw [if_pos hmp]
              exact mappedOK_mcfo s ptr _ _ h
            · rw [if_neg hmp]
              exact h

theorem mappedOK_os_calloc (s : AllocState) (k m : Nat) (h : MappedOK s) :
    MappedOK (os_calloc s k m).2 := by
  simp only [os_calloc]
  have h2 : MappedOK (os_malloc { s with threshold := PAGE_SIZE } ((k * m) % two64)).2 :=
    mappedOK_os_malloc _ _ (mappedOK_same _ _ rfl rfl h)
  split
  · exact mappedOK_same _ _ rfl rfl h2
  · exact mappedOK_same _ _ rfl rfl (mappedOK_same _ _ rfl rfl h2)

theorem mappedOK_step (s : AllocState) (op : Op) (h : MappedOK s) :
    MappedOK (stepOp s op) := by
  cases op with
  | mallocOp n => exact mappedOK_os_malloc s n h
  | freeOp p => exact mappedOK_os_free s p h
  | callocOp k m => exact mappedOK_os_calloc s k m h
  | reallocOp p n => exact mappedOK_os_realloc s p n h
  | storeOp a v => exact mappedOK_same _ _ rfl rfl h

theorem mappedOK_runOps (s : AllocState) (h : MappedOK s) :
    ∀ ops, MappedOK (runOps s ops) := by
  intro ops
  induction ops generalizing s with
  | nil => exact h
  | cons op rest ih => exact ih _ (mappedOK_step s op h)

/-- C6: starting from the fresh allocator, after any sequence of public
operations and client stores, every byte length ever passed to `munmap`
equals the byte length passed to `mmap` when the same region was
acquired: each recorded `munmap(a, l)` has a matching recorded
`mmap(a, l)`. -/
theorem claim_C6 (ops : List Op) (a l : Nat)
    (h : MemEvent.munmapEv a l ∈ (runOps freshState ops).events) :
    MemEvent.mmapEv a l ∈ (runOps freshState ops).events := by
  have hfresh : MappedOK freshState := by
    refine ⟨?_, ?_⟩ <;> simp [freshState]
  exact (mappedOK_runOps freshState hfresh ops).2 a l h

/-- C6 witness: `p = allocate(200000)` maps 200024 bytes at `mmapBase`;
`free(p)` unmaps the same 200024 bytes at the same address. -/
theorem claim_C6_witness :
    MemEvent.mmapEv mmapBase 200024
      ∈ (runOps freshState [.mallocOp 200000, .freeOp (mmapBase + 24)]).events :=
  claim_C6 [.mallocOp 200000, .freeOp (mmapBase + 24)] mmapBase 200024 (by decide)

/-- Structural well-formedness of an allocator state: block sizes are
8-byte multiples below 2^64; header addresses are 8-byte aligned and
confined to their arena (heap headers below the break, mapped headers in
the mmap arena); addresses are pairwise distinct; the break is 8-byte
aligned and well below the mmap arena; the threshold is above 32 and at
most 128 KiB; once preallocation has run the list is non-empty. -/
def WFblock (brkv mN : Nat) (x : Nat × BlockMeta) : Prop :=
  x.1 % 8 = 0 ∧ x.2.size % 8 = 0 ∧ x.2.size < two64 ∧
  (if x.2.status = Status.mapped then mmapBase ≤ x.1 ∧ x.1 < mN else x.1 < brkv)

instance (brkv mN : Nat) (x : Nat × BlockMeta) : Decidable (WFblock brkv mN x) := by
  unfold WFblock; infer_instance

def WF (s : AllocState) : Prop :=
  (∀ x ∈ s.blocks, WFblock s.brk s.mmapNext x) ∧
  (s.blocks.map Prod.fst).Nodup ∧
  s.brk % 8 = 0 ∧ s.brk + 1048576 ≤ mmapBase ∧
  mmapBase ≤ s.mmapNext ∧ s.mmapNext % 8 = 0 ∧
  s.mmapNext < 1152921504606846976 ∧
  32 < s.threshold ∧ s.threshold ≤ 131072 ∧
  (s.heapPrealloc = true → s.blocks ≠ [])

instance (s : AllocState) : Decidable (WF s) := by
  unfold WF; infer_instance

/-- Arithmetic facts about `ALIGN` on inputs where no wraparound occurs. -/
theorem ALIGN_small (n : Nat) (h : n ≤ two64 - 32) :
    ALIGN n = (n + 7) / 8 * 8 ∧ n ≤ ALIGN n ∧ ALIGN n < n + 8 ∧ ALIGN n % 8 = 0 ∧
    ALIGN n ≤ two64 - 32 ∧ alignSpec n = ALIGN n := by
  unfold ALIGN alignSpec
  unfold two64 at h ⊢
  omega

/-- `ALIGN` is the identity on aligned machine values. -/
theorem ALIGN_id (m : Nat) (h8 : m % 8 = 0) (hlt : m < two64) : ALIGN m = m := by
  unfold ALIGN
  unfold two64 at hlt ⊢
  omega

/-- The payload handle inherits 8-byte alignment from the header. -/
theorem get_ptr_block_mod8 (a : Nat) (h : a % 8 = 0) : get_ptr_block a % 8 = 0 := by
  unfold get_ptr_block BLOCK_META_SIZE two64
  omega

/-- Sizes of a coalesced list remain aligned machine values. -/
theorem coalesceList_sizes (bs : List (Nat × BlockMeta))
    (h : ∀ x ∈ bs, x.2.size % 8 = 0 ∧ x.2.size < two64) :
    ∀ x ∈ coalesceList bs, x.2.size % 8 = 0 ∧ x.2.size < two64 := by
  induction bs using coalesceList.induct with
  | case1 => simp [coalesceList]
  | case2 y =>
      intro x hx
      simp only [coalesceList] at hx
      rcases List.mem_singleton.mp hx with rfl
      exact h _ (List.mem_singleton_self _)
  | case3 a1 b1 a2 b2 rest hc ih =>
      intro x hx
      simp only [coalesceList, if_pos hc] at hx
      rcases List.mem_cons.mp hx with rfl | hx
      · have h1 := h (a1, b1) (List.mem_cons_self _ _)
        have h2 := h (a2, b2) (List.mem_cons_of_mem _ (List.mem_cons_self _ _))
        simp only [coalesce_two]
        constructor
        · have e1 : b1.size % 8 = 0 := h1.1
          have e2 : b2.size % 8 = 0 := h2.1
          have e3 : ALIGN BLOCK_META_SIZE = 24 := by decide
          rw [e3]
          unfold two64
          omega
        · exact Nat.mod_lt _ (by unfold two64; omega)
      · exact ih (fun y hy => h y (List.mem_cons_of_mem _ (List.mem_cons_of_mem _ hy))) x hx
  | case4 a1 b1 a2 b2 rest hc ih =>
      intro x hx
      simp only [coalesceList, if_neg hc] at hx
      rcases List.mem_cons.mp hx with rfl | hx
      · exact h _ (List.mem_cons_self _ _)
      · exact ih (fun y hy => h y (List.mem_cons_of_mem _ hy)) x hx

/-- The addresses of the coalesced list form a sublist of the original
addresses. -/
theorem coalesceList_addrs (bs : List (Nat × BlockMeta)) :
    ((coalesceList bs).map Prod.fst).Sublist (bs.map Prod.fst) := by
  induction bs using coalesceList.induct with
  | case1 => simp [coalesceList]
  | case2 y => simp [coalesceList]
  | case3 a1 b1 a2 b2 rest hc ih =>
      simp only [coalesceList, if_pos hc, List.map_cons]
      exact List.Sublist.cons₂ _ (List.Sublist.cons _ ih)
  | case4 a1 b1 a2 b2 rest hc ih =>
      simp only [coalesceList, if_neg hc, List.map_cons]
      exact List.Sublist.cons₂ _ ih

/-- An address occurring in the coalesced list carries some original
block's well-formedness. -/
theorem coalesceList_addr_mem (bs : List (Nat × BlockMeta)) (a : Nat) (bm : BlockMeta)
    (h : (a, bm) ∈ coalesceList bs) : ∃ bm', (a, bm') ∈ bs := by
  have ha : a ∈ (coalesceList bs).map Prod.fst := List.mem_map_of_mem Prod.fst h
  have ha' : a ∈ bs.map Prod.fst := (coalesceList_addrs bs).subset ha
  obtain ⟨x, hx, hxx⟩ := List.mem_map.mp ha'
  obtain ⟨x1, x2⟩ := x
  cases hxx
  exact ⟨x2, hx⟩

/-- Appending an `ALLOC` block. -/
theorem add_alloc_blocks (s : AllocState) (a sz : Nat) :
    (add_memory_block s a ⟨sz, .alloc⟩).blocks = s.blocks ++ [(a, ⟨sz, .alloc⟩)] := rfl

/-- Prepending a `MAPPED` block. -/
theorem add_mapped_blocks (s : AllocState) (a sz : Nat) :
    (add_memory_block s a ⟨sz, .mapped⟩).blocks = (a, ⟨sz, .mapped⟩) :: s.blocks := rfl

/-- Appending the preallocation's `FREE` block (only before the flag is
set). -/
theorem add_free_blocks (s : AllocState) (a sz : Nat) (h : s.heapPrealloc = false) :
    add_memory_block s a ⟨sz, .free⟩ = setBlocks s (s.blocks ++ [(a, ⟨sz, .free⟩)]) := by
  simp only [add_memory_block]
  rw [if_pos h]

/-- `add_memory_block` only touches the list and the byte memory. -/
theorem add_fields (s : AllocState) (a : Nat) (b : BlockMeta) :
    (add_memory_block s a b).threshold = s.threshold ∧
    (add_memory_block s a b).brk = s.brk ∧
    (add_memory_block s a b).mmapNext = s.mmapNext ∧
    (add_memory_block s a b).heapPrealloc = s.heapPrealloc := by
  obtain ⟨bsz, bst⟩ := b
  cases bst
  · simp only [add_memory_block]
    by_cases h : s.heapPrealloc = false
    · rw [if_pos h]; exact ⟨rfl, rfl, rfl, rfl⟩
    · rw [if_neg h]; exact ⟨rfl, rfl, rfl, rfl⟩
  · exact ⟨rfl, rfl, rfl, rfl⟩
  · exact ⟨rfl, rfl, rfl, rfl⟩

/-- The heap branch of `request_memory`. -/
theorem request_memory_heap (s : AllocState) (size : Nat)
    (h : (ALIGN size + ALIGN BLOCK_META_SIZE) % two64 < s.threshold) :
    request_memory s size =
      ((s.brk, ⟨ALIGN size, .alloc⟩),
        { s with brk := s.brk + (ALIGN size + ALIGN BLOCK_META_SIZE) % two64,
                 mem := writeHdrMem (zeroRegion s.mem s.brk
                     ((ALIGN size + ALIGN BLOCK_META_SIZE) % two64))
                   s.brk (ALIGN size) 0 (statusCode .alloc),
                 events := .sbrkEv ((ALIGN size + ALIGN BLOCK_META_SIZE) % two64)
                   :: s.events }) := by
  simp only [request_memory]
  rw [if_pos h]

/-- The mapped branch of `request_memory`. -/
theorem request_memory_mapped (s : AllocState) (size : Nat)
    (h : ¬ (ALIGN size + ALIGN BLOCK_META_SIZE) % two64 < s.threshold) :
    request_memory s size =
      ((s.mmapNext, ⟨ALIGN size, .mapped⟩),
        { s with mmapNext := s.mmapNext
                   + ((ALIGN size + ALIGN BLOCK_META_SIZE) % two64 + 4095) / 4096 * 4096,
                 mem := writeHdrMem (zeroRegion s.mem s.mmapNext
                     (((ALIGN size + ALIGN BLOCK_META_SIZE) % two64 + 4095) / 4096 * 4096))
                   s.mmapNext (ALIGN size) 0 (statusCode .mapped),
                 events := .mmapEv s.mmapNext ((ALIGN size + ALIGN BLOCK_META_SIZE) % two64)
                   :: s.events }) := by
  simp only [request_memory]
  rw [if_neg h]

/-- `preallocate_heap` appends one free block of payload
`PREALLOC_SIZE - ALIGN (BLOCK_META_SIZE)` at the old break and advances
the break by `PREALLOC_SIZE`. -/
theorem preallocate_state (s : AllocState) (h : s.heapPrealloc = false) :
    (preallocate_heap s).blocks
      = s.blocks ++ [(s.brk, ⟨PREALLOC_SIZE - ALIGN BLOCK_META_SIZE, .free⟩)] ∧
    (preallocate_heap s).brk = s.brk + PREALLOC_SIZE ∧
    (preallocate_heap s).threshold = s.threshold ∧
    (preallocate_heap s).mmapNext = s.mmapNext := by
  simp only [preallocate_heap]
  rw [add_free_blocks _ _ _ (by exact h)]
  exact ⟨rfl, rfl, rfl, rfl⟩

/-- Decomposition of a list by its last element. -/
theorem getLast_decomp {α : Type} (l : List α) (x : α) (h : l.getLast? = some x) :
    ∃ l', l = l' ++ [x] := by
  induction l generalizing x with
  | nil => cases h
  | cons a rest ih =>
      cases hr : rest with
      | nil =>
          subst hr
          simp only [List.getLast?_singleton] at h
          cases h
          exact ⟨[], rfl⟩
      | cons b rest2 =>
          subst hr
          rw [List.getLast?_cons_cons] at h
          obtain ⟨l', hl'⟩ := ih x h
          exact ⟨a :: l', by rw [hl']; rfl⟩

/-- `updateLast` on a decomposed list. -/
theorem updateLast_append (l' : List (Nat × BlockMeta)) (x : Nat × BlockMeta)
    (bm : BlockMeta) : updateLast (l' ++ [x]) bm = l' ++ [(x.1, bm)] := by
  induction l' with
  | nil => obtain ⟨a, b⟩ := x; rfl
  | cons y rest ih =>
      cases rest with
      | nil =>
          obtain ⟨a, b⟩ := x
          rfl
      | cons z rest2 =>
          have h1 : updateLast (y :: ((z :: rest2) ++ [x])) bm
              = y :: updateLast ((z :: rest2) ++ [x]) bm := rfl
          calc updateLast ((y :: z :: rest2) ++ [x]) bm
              = y :: updateLast ((z :: rest2) ++ [x]) bm := h1
            _ = y :: ((z :: rest2) ++ [(x.1, bm)]) := by rw [ih]
            _ = (y :: z :: rest2) ++ [(x.1, bm)] := rfl

/-- The first block at address `a` after a split: either an exact `ALLOC`
block of the carved size, or the original block marked `ALLOC`. -/
theorem splitList_mem (bs : List (Nat × BlockMeta)) (a n : Nat) (b : BlockMeta)
    (hnd : (bs.map Prod.fst).Nodup) (hmem : (a, b) ∈ bs) :
    ∃ bm : BlockMeta, (a, bm) ∈ splitList bs a n ∧ bm.status = Status.alloc ∧
      (bm.size = ALIGN n ∨ bm.size = b.size) := by
  induction bs with
  | nil => cases hmem
  | cons hd rest ih =>
      obtain ⟨a', b'⟩ := hd
      have hnd' := hnd
      rw [List.map_cons] at hnd'
      have hcons := List.nodup_cons.mp hnd'
      by_cases he : a' = a
      · subst he
        have hnotin : a' ∉ rest.map Prod.fst := hcons.1
        have hb : b' = b := by
          rcases List.mem_cons.mp hmem with heq | hmem'
          · cases heq; rfl
          · exact absurd (List.mem_map_of_mem Prod.fst hmem') hnotin
        subst hb
        simp only [splitList, if_true]
        by_cases hg : (ALIGN n + ALIGN BLOCK_META_SIZE + 8) % two64 ≤ b'.size
        · rw [if_pos hg]
          exact ⟨⟨ALIGN n, .alloc⟩, List.mem_cons_self _ _, rfl, Or.inl rfl⟩
        · rw [if_neg hg]
          exact ⟨⟨b'.size, .alloc⟩, List.mem_cons_self _ _, rfl, Or.inr rfl⟩
      · have hmem' : (a, b) ∈ rest := by
          rcases List.mem_cons.mp hmem with heq | h'
          · cases heq; exact absurd rfl he
          · exact h'
        obtain ⟨bm, h1, h2, h3⟩ := ih hcons.2 hmem'
        refine ⟨bm, ?_, h2, h3⟩
        simp only [splitList]
        rw [if_neg he]
        exact List.mem_cons_of_mem _ h1

/-- `find_last_free_block` returns the last list entry, and only when it
is free. -/
theorem find_last_some (s : AllocState) (la : Nat) (lb : BlockMeta)
    (h : find_last_free_block s = some (la, lb)) :
    lb.status = Status.free ∧ ∃ l', s.blocks = l' ++ [(la, lb)] := by
  unfold find_last_free_block at h
  cases hg : s.blocks.getLast? with
  | none => rw [hg] at h; cases h
  | some y =>
      rw [hg] at h
      obtain ⟨ya, yb⟩ := y
      have h2 : (if yb.status = Status.free then some (ya, yb) else none)
          = some (la, lb) := h
      by_cases hf : yb.status = Status.free
      · rw [if_pos hf] at h2
        cases h2
        exact ⟨hf, getLast_decomp _ _ hg⟩
      · rw [if_neg hf] at h2
        cases h2

/-- The tail-extension arithmetic: when the last free block of aligned
size `L` is too small for the aligned request, the wrapped `size_t`
expression `size - L - ALIGN(BLOCK_META_SIZE)` (which may underflow)
still leads to a break extension below the threshold, and merging the
requested block into the last block yields exactly `ALIGN size` — the
underflow cancels modulo 2^64. -/
theorem tailExt_arith (size L T : Nat) (h8 : L % 8 = 0) (h0 : 0 < size)
    (hb : size ≤ two64 - 32) (hlt : L < ALIGN size)
    (hT : (ALIGN size + ALIGN BLOCK_META_SIZE) % two64 < T) (hTb : T ≤ 131072) :
    (ALIGN (csub (csub size L) (ALIGN BLOCK_META_SIZE)) + ALIGN BLOCK_META_SIZE) % two64 < T ∧
    (L + ALIGN (csub (csub size L) (ALIGN BLOCK_META_SIZE)) + ALIGN BLOCK_META_SIZE) % two64
      = ALIGN size := by
  have hmeta : ALIGN BLOCK_META_SIZE = 24 := by decide
  rw [hmeta] at hT ⊢
  obtain ⟨hAeq, hAle, hAlt, hA8, hAb, -⟩ := ALIGN_small size hb
  set R := ALIGN size with hR
  unfold ALIGN csub
  unfold two64 at hb hT hAb ⊢
  omega

/-- Postcondition of `os_malloc` on a well-formed state, for any size
whose aligned footprint does not overflow `size_t`: the call returns a
non-null 8-byte-aligned payload handle whose block is in the resulting
list with status `ALLOCATED` or `MAPPED` and payload size at least the
spec's `align8(size)` — covering the best-fit, tail-extension, fresh
break-extension and mapping paths. -/
theorem os_malloc_post (s : AllocState) (size : Nat) (hwf : WF s) (h0 : 0 < size)
    (hb : size ≤ two64 - 32) :
    ∃ a bm, (os_malloc s size).1 = some (get_ptr_block a) ∧ get_ptr_block a % 8 = 0 ∧
      (a, bm) ∈ (os_malloc s size).2.blocks ∧ alignSpec size ≤ bm.size ∧
      bm.status ≠ Status.free := by
  obtain ⟨hwfb, hnd, hbrk8, hbrkm, hmm1, hmm8, hmmlt, hth1, hth2, hpne⟩ := hwf
  obtain ⟨hAeq, hAle, hAlt, hA8, hAb, hAs⟩ := ALIGN_small size hb
  have hsz0 : size ≠ 0 := Nat.pos_iff_ne_zero.mp h0
  simp only [os_malloc]
  rw [if_neg hsz0]
  by_cases ht : (ALIGN size + ALIGN BLOCK_META_SIZE) % two64 < s.threshold
  case neg =>
    rw [if_neg ht, request_memory_mapped s size ht]
    refine ⟨s.mmapNext, ⟨ALIGN size, .mapped⟩, rfl, get_ptr_block_mod8 _ hmm8, ?_, ?_,
      by simp⟩
    · rw [add_mapped_blocks]
      exact List.mem_cons_self _ _
    · rw [hAs]
  case pos =>
    rw [if_pos ht]
    set s1 := if s.heapPrealloc = true then s
      else { preallocate_heap s with heapPrealloc := true } with hs1def
    have hs1 : (∀ x ∈ s1.blocks, x.1 % 8 = 0 ∧ x.2.size % 8 = 0 ∧ x.2.size < two64) ∧
        (s1.blocks.map Prod.fst).Nodup ∧ s1.threshold = s.threshold ∧ s1.brk % 8 = 0 := by
      rw [hs1def]
      by_cases hpre : s.heapPrealloc = true
      · rw [if_pos hpre]
        exact ⟨fun x hx => ⟨(hwfb x hx).1, (hwfb x hx).2.1, (hwfb x hx).2.2.1⟩,
          hnd, rfl, hbrk8⟩
      · rw [if_neg hpre]
        have hpre' : s.heapPrealloc = false := by
          cases hhh : s.heapPrealloc
          · rfl
          · exact absurd hhh hpre
        obtain ⟨hpb, hpk, hpt, hpm⟩ := preallocate_state s hpre'
        have hblk : ({ preallocate_heap s with heapPrealloc := true } : AllocState).blocks
            = s.blocks ++ [(s.brk, ⟨PREALLOC_SIZE - ALIGN BLOCK_META_SIZE, .free⟩)] := hpb
        have hbrk' : ({ preallocate_heap s with heapPrealloc := true } : AllocState).brk
            = s.brk + PREALLOC_SIZE := hpk
        refine ⟨?_, ?_, hpt, ?_⟩
        · intro x hx
          rw [hblk] at hx
          rcases List.mem_append.mp hx with hx1 | hx1
          · exact ⟨(hwfb x hx1).1, (hwfb x hx1).2.1, (hwfb x hx1).2.2.1⟩
          · rcases List.mem_singleton.mp hx1 with rfl
            refine ⟨hbrk8, ?_, ?_⟩
            · show (PREALLOC_SIZE - ALIGN BLOCK_META_SIZE) % 8 = 0
              decide
            · show PREALLOC_SIZE - ALIGN BLOCK_META_SIZE < two64
              decide
        · rw [hblk, List.map_append, List.nodup_append]
          refine ⟨hnd, by simp, ?_⟩
          intro aa haa hsing
          have haa' : ∃ x ∈ s.blocks, x.1 = aa := by
            obtain ⟨x, hx, hxx⟩ := List.mem_map.mp haa
            exact ⟨x, hx, hxx⟩
          obtain ⟨x, hx, hxx⟩ := haa'
          have hsing' : aa = s.brk := by simpa using hsing
          have hwb := (hwfb x hx).2.2.2
          by_cases hmx : x.2.status = Status.mapped
          · rw [if_pos hmx] at hwb
            have : mmapBase ≤ aa := by rw [← hxx]; exact hwb.1
            unfold mmapBase at this
            omega
          · rw [if_neg hmx] at hwb
            rw [hxx] at hwb
            omega
        · rw [hbrk']
          have : PREALLOC_SIZE % 8 = 0 := by decide
          omega
    obtain ⟨h1all, h1nd, h1th, h1brk⟩ := hs1
    have h2sizes : ∀ x ∈ coalesceList s1.blocks, x.2.size % 8 = 0 ∧ x.2.size < two64 :=
      coalesceList_sizes s1.blocks (fun x hx => ⟨(h1all x hx).2.1, (h1all x hx).2.2⟩)
    have h2nd : ((coalesceList s1.blocks).map Prod.fst).Nodup :=
      List.Nodup.sublist (coalesceList_addrs s1.blocks) h1nd
    have h2addr : ∀ a bm, (a, bm) ∈ coalesceList s1.blocks → a % 8 = 0 := by
      intro a bm hm
      obtain ⟨bm', hm'⟩ := coalesceList_addr_mem s1.blocks a bm hm
      exact (h1all (a, bm') hm').1
    have hts2 : (find_best_free_block s1 (ALIGN size)).2.threshold = s.threshold := h1th
    have hbrk2 : (find_best_free_block s1 (ALIGN size)).2.brk % 8 = 0 := h1brk
    split
    case _ a bm0 heq =>
      have heq' : bestFitLoop (ALIGN size) (coalesceList s1.blocks) none = some (a, bm0) := heq
      rcases bestFitLoop_pos _ _ _ _ heq' with hacc | ⟨l1, l2, hl, hfy, hlt2, hac⟩
      · cases hacc
      have hmemc : (a, bm0) ∈ coalesceList s1.blocks := by
        rw [hl]
        exact List.mem_append_right _ (List.mem_cons_self _ _)
      obtain ⟨bm', hmem', hst', hsz'⟩ :=
        splitList_mem (coalesceList s1.blocks) a size bm0 h2nd hmemc
      refine ⟨a, bm', rfl, get_ptr_block_mod8 a (h2addr a bm0 hmemc), hmem', ?_, ?_⟩
      · rw [hAs]
        rcases hsz' with hh | hh
        · rw [hh]
        · rw [hh]
          exact hfy.2
      · rw [hst']
        decide
    case _ heq =>
      have heq' : bestFitLoop (ALIGN size) (coalesceList s1.blocks) none = none := heq
      have hnofit := (bestFitLoop_none _ _ none heq').2
      split
      case _ hfl =>
        have ht2 : (ALIGN size + ALIGN BLOCK_META_SIZE) % two64
            < (find_best_free_block s1 (ALIGN size)).2.threshold := by
          rw [hts2]; exact ht
        rw [request_memory_heap _ size ht2]
        rw [add_alloc_blocks]
        refine ⟨(find_best_free_block s1 (ALIGN size)).2.brk, ⟨ALIGN size, .alloc⟩, rfl,
          get_ptr_block_mod8 _ hbrk2, ?_, ?_, by simp⟩
        · exact List.mem_append_right _ (List.mem_singleton_self _)
        · rw [hAs]
      case _ la lb hfl =>
        obtain ⟨hlfree, l', hdecomp⟩ := find_last_some _ la lb hfl
        have hlmem : (la, lb) ∈ coalesceList s1.blocks := by
          have : (la, lb) ∈ (find_best_free_block s1 (ALIGN size)).2.blocks := by
            rw [hdecomp]
            exact List.mem_append_right _ (List.mem_singleton_self _)
          exact this
        have hnf := hnofit (la, lb) hlmem
        have hlsize : lb.size < ALIGN size := by
          by_contra hcon
          exact hnf ⟨hlfree, Nat.le_of_not_lt hcon⟩
        have hl8 : lb.size % 8 = 0 := (h2sizes (la, lb) hlmem).1
        obtain ⟨ha1, ha2⟩ := tailExt_arith size lb.size s.threshold hl8 h0 hb hlsize ht hth2
        have ht3 : (ALIGN (csub (csub size lb.size) (ALIGN BLOCK_META_SIZE))
            + ALIGN BLOCK_META_SIZE) % two64
            < (find_best_free_block s1 (ALIGN size)).2.threshold := by
          rw [hts2]; exact ha1
        rw [request_memory_heap _ _ ht3]
        refine ⟨la, ⟨(lb.size + ALIGN (csub (csub size lb.size) (ALIGN BLOCK_META_SIZE))
          + ALIGN BLOCK_META_SIZE) % two64, .alloc⟩, rfl,
          get_ptr_block_mod8 la (h2addr la lb hlmem), ?_, ?_, by simp⟩
        · have hmem2 : (la, (⟨(lb.size + ALIGN (csub (csub size lb.size)
              (ALIGN BLOCK_META_SIZE)) + ALIGN BLOCK_META_SIZE) % two64, .alloc⟩ : BlockMeta))
              ∈ updateLast (l' ++ [(la, lb)])
                ⟨(lb.size + ALIGN (csub (csub size lb.size) (ALIGN BLOCK_META_SIZE))
                  + ALIGN BLOCK_META_SIZE) % two64, .alloc⟩ := by
            rw [updateLast_append]
            exact List.mem_append_right _ (List.mem_singleton_self _)
          rw [← hdecomp] at hmem2
          exact hmem2
        · rw [hAs, ← ha2]

/-- Reading inside a freshly `memset` region yields the stored value. -/
theorem memsetMem_read (m : Mem) (p v n x : Nat) (h : p ≤ x ∧ x < p + n) :
    memsetMem m p v n x = v := by
  unfold memsetMem
  rw [if_pos h]

/-- C3 (amended): for every `size > 0` whose aligned request does not
overflow `size_t` (`size ≤ 2^64 - 32`), `allocate(size)` on any
well-formed state returns a non-null 8-byte-aligned payload handle whose
block is in the resulting list, is not `FREE`, and has payload size at
least `align8(size)` — including the tail-extension path taken when
best-fit fails and the last block is free. -/
theorem claim_C3 (s : AllocState) (size : Nat) (hwf : WF s) (h0 : 0 < size)
    (hb : size ≤ two64 - 32) :
    ∃ a bm, (os_malloc s size).1 = some (get_ptr_block a) ∧ get_ptr_block a % 8 = 0 ∧
      (a, bm) ∈ (os_malloc s size).2.blocks ∧ alignSpec size ≤ bm.size ∧
      bm.status ≠ Status.free :=
  os_malloc_post s size hwf h0 hb

/-- C3 witness: in the state after `allocate(131000)` (one allocated
block and a 24-byte free tail), `allocate(64)` succeeds via tail
extension of the last free block. -/
theorem claim_C3_witness :
    WF (runOps freshState [.mallocOp 131000]) ∧ (0:Nat) < 64 ∧
    (64:Nat) ≤ two64 - 32 ∧
    (∃ a bm, (os_malloc (runOps freshState [.mallocOp 131000]) 64).1
        = some (get_ptr_block a) ∧
      get_ptr_block a % 8 = 0 ∧
      (a, bm) ∈ (os_malloc (runOps freshState [.mallocOp 131000]) 64).2.blocks ∧
      alignSpec 64 ≤ bm.size ∧ bm.status ≠ Status.free) :=
  ⟨by decide, by decide, by decide,
    claim_C3 (runOps freshState [.mallocOp 131000]) 64 (by decide) (by decide) (by decide)⟩

/-- C4 (amended): on any well-formed state, when the `size_t` product
`k*m mod 2^64` is positive and its aligned request does not overflow,
`zero_allocate(k, m)` returns a non-null 8-byte-aligned payload whose
first `k*m mod 2^64` bytes are all zero, whose block has payload size at
least `align8(k*m mod 2^64)`, and `MAP_THRESHOLD` is 128 KiB again after
the call (the padding bytes between `k*m` and `align8(k*m)` are NOT
zeroed by the implementation; see the counterexample). -/
theorem claim_C4 (s : AllocState) (k m : Nat) (hwf : WF s)
    (h0 : 0 < (k * m) % two64) (hb : (k * m) % two64 ≤ two64 - 32) :
    ∃ a, (os_calloc s k m).1 = some (get_ptr_block a) ∧ get_ptr_block a % 8 = 0 ∧
      (∀ i, i < (k * m) % two64 → (os_calloc s k m).2.mem (get_ptr_block a + i) = 0) ∧
      (∃ bm, (a, bm) ∈ (os_calloc s k m).2.blocks ∧
        alignSpec ((k * m) % two64) ≤ bm.size ∧ bm.status ≠ Status.free) ∧
      (os_calloc s k m).2.threshold = 131072 := by
  have hwf' : WF { s with threshold := PAGE_SIZE } := by
    obtain ⟨h1, h2, h3, h4, h5, h6, h7, h8, h9, h10⟩ := hwf
    refine ⟨h1, h2, h3, h4, h5, h6, h7, ?_, ?_, h10⟩
    · show (32:Nat) < PAGE_SIZE
      decide
    · show PAGE_SIZE ≤ 131072
      decide
  obtain ⟨a, bm, hr1, hr2, hr3, hr4, hr5⟩ :=
    os_malloc_post { s with threshold := PAGE_SIZE } ((k * m) % two64) hwf' h0 hb
  simp only [os_calloc]
  rw [hr1]
  refine ⟨a, rfl, hr2, ?_, ⟨bm, hr3, hr4, hr5⟩, rfl⟩
  intro i hi
  exact memsetMem_read _ _ _ _ _ ⟨Nat.le_add_right _ _, by omega⟩

/-- C4 witness: `zero_allocate(3, 5)` from the fresh allocator. -/
theorem claim_C4_witness :
    WF freshState ∧ (0:Nat) < (3 * 5) % two64 ∧ (3 * 5) % two64 ≤ two64 - 32 ∧
    (∃ a, (os_calloc freshState 3 5).1 = some (get_ptr_block a) ∧
      get_ptr_block a % 8 = 0 ∧
      (∀ i, i < (3 * 5) % two64 → (os_calloc freshState 3 5).2.mem (get_ptr_block a + i) = 0) ∧
      (∃ bm, (a, bm) ∈ (os_calloc freshState 3 5).2.blocks ∧
        alignSpec ((3 * 5) % two64) ≤ bm.size ∧ bm.status ≠ Status.free) ∧
      (os_calloc freshState 3 5).2.threshold = 131072) :=
  ⟨by decide, by decide, by decide,
    claim_C4 freshState 3 5 (by decide) (by decide) (by decide)⟩
